import Mathlib

/-!
# music163: the request/response pipeline of the API client

A shallow embedding of `music163/music163.go` (`addOptions`, `Client.NewRequest`,
`Client.Do`, `CheckResponse`, `ErrorResponse.Error`, `Error.Error`) together with
the fragments of the Go standard library those functions call.

Conventions.
* A Go `string` and a Go `[]byte` are byte sequences: `GoString = List UInt8`.
  `str "text"` is the UTF-8 encoding of a literal.
* A Go `int` is a Lean `Int` (no arithmetic is performed on it in this file).
* A value of the Go interface type `error` is a `GoError`; the nil error is `none`.
* A Go pointer that may be nil is an `Option`.
* The library functions the client calls (`net/url`, `encoding/json` on an
  `*ErrorResponse`, `fmt`, `io`, `net/http.NewRequest`) are transcribed as far as
  the client uses them. What depends on a type chosen by the caller is an
  argument: the JSON decoder of the result type, the JSON encoder of the request
  body, the query encoder of the options type, and the decoder of `http.Response`.
* The lexical layer of JSON is not transcribed: a body carries, next to its bytes,
  the JSON value those bytes denote.
-/

set_option linter.dupNamespace false
set_option maxRecDepth 100000

namespace Music163

/-- Go strings and byte slices: finite sequences of bytes. -/
abbrev GoString := List UInt8

/-- UTF-8 encoding of a literal, as the Go compiler stores string constants. -/
def str (s : String) : GoString := (String.toUTF8 s).data.toList

/-! ## Data model -/

/-- Type `url.Userinfo`: a username and an optional password. -/
structure Userinfo where
  username : GoString
  password : GoString
  passwordSet : Bool
deriving DecidableEq, Repr

/-- Type `url.URL`, the parsed form `[scheme:][//[userinfo@]host][/]path[?query][#fragment]`
or `scheme:opaque[?query][#fragment]`. -/
structure URL where
  Scheme : GoString := []
  Opaque : GoString := []
  User : Option Userinfo := none
  Host : GoString := []
  Path : GoString := []
  RawPath : GoString := []
  OmitHost : Bool := false
  ForceQuery : Bool := false
  RawQuery : GoString := []
  Fragment : GoString := []
  RawFragment : GoString := []
deriving DecidableEq, Repr

/-- A JSON value as read by `encoding/json`: object members are kept in document
order, member names and strings are the decoded Go strings, and a number keeps its
literal text. -/
inductive JValue where
  | null : JValue
  | bool (b : Bool) : JValue
  | number (literal : GoString) : JValue
  | string (s : GoString) : JValue
  | array (items : List JValue) : JValue
  | object (members : List (GoString × JValue)) : JValue

/-- A response body stream (`io.ReadCloser`). Reading it yields `data` and then
either end-of-file (`readErr = none`) or the read error `readErr`.
`json` is the value `encoding/json` reads from `data`: `none` when `data` is not
a syntactically valid JSON text (the empty input included). -/
structure Body where
  data : GoString
  readErr : Option GoString := none
  json : Option JValue := none

/-- Type `http.Request`, as far as the client fills it in: method, URL, headers
(in the order added) and the payload. -/
structure Request where
  Method : GoString
  URL : URL
  Header : List (GoString × GoString) := []
  Body : GoString := []
deriving DecidableEq

/-- Type `http.Response`: status code, headers, the body stream and the request
that was sent to obtain it. -/
structure HTTPResponse where
  StatusCode : Int
  Header : List (GoString × GoString) := []
  Body : Body
  Request : Option Request

/-- Type `Response`: the wrapper around `*http.Response` returned by `Do`. -/
structure Response where
  Response : HTTPResponse

/-- Type `Error`: one field-level sub-error of an `ErrorResponse`. -/
structure Error where
  Resource : GoString := []
  Field : GoString := []
  Code : GoString := []
deriving DecidableEq, Repr

/-- Type `ErrorResponse`: the error envelope. `Response` is a pointer: `none` is
the nil pointer, `some h` a pointer to a response whose fields are `h`. -/
structure ErrorResponse where
  Response : Option HTTPResponse
  Message : GoString := []
  Errors : List Error := []

/-- Values of the interface type `error` that flow through the client: the
envelope built by `CheckResponse`, or an error of the transport, of a stream
copy, of the JSON decoder, or of the URL/query libraries. -/
inductive GoError where
  | api (e : ErrorResponse) : GoError
  | transport (msg : GoString) : GoError
  | decoding (msg : GoString) : GoError
  | parse (msg : GoString) : GoError
  | encoding (msg : GoString) : GoError

/-- Type `Client`. The field `client` is the transport (`http.Client.Do`): it
either fails or delivers a response. -/
structure Client where
  client : Request → Except GoString HTTPResponse
  BaseURL : URL
  UserAgent : GoString

/-- An `io.Writer` handed to `Do` as destination: the bytes written so far, and
how many more bytes it accepts before its `Write` fails (`none`: it never fails). -/
structure Sink where
  written : GoString := []
  room : Option Nat := none
deriving DecidableEq, Repr

/-- The destination argument `v interface{}` of `Do`: the nil interface, a value
that is an `io.Writer`, or a pointer to a result value of type `V`. -/
inductive Dest (V : Type) where
  | none : Dest V
  | sink (w : Sink) : Dest V
  | ptr (x : V) : Dest V

/-! ## encoding/json: decoding into an `*ErrorResponse` -/

/-- Case folding of a JSON member name for the case-insensitive match against a
struct field name: ASCII upper case to lower case, U+017F (long s, bytes `C5 BF`)
to `s` and U+212A (Kelvin sign, bytes `E2 84 AA`) to `k`. `skip` counts the
continuation bytes of a folded character that are still to be dropped. -/
def foldNameFrom : Nat → GoString → GoString
  | _, [] => []
  | skip + 1, _ :: rest => foldNameFrom skip rest
  | 0, b :: rest =>
    if b = 0xC5 ∧ rest.take 1 = [0xBF] then 0x73 :: foldNameFrom 1 rest
    else if b = 0xE2 ∧ rest.take 2 = [0x84, 0xAA] then 0x6B :: foldNameFrom 2 rest
    else (if 0x41 ≤ b ∧ b ≤ 0x5A then b + 0x20 else b) :: foldNameFrom 0 rest

/-- Case folding of a whole member name. -/
def foldName (key : GoString) : GoString := foldNameFrom 0 key

/-- A member name selects the struct field with JSON name `name`: an exact match,
or else a case-insensitive one. -/
def fieldMatches (name : String) (key : GoString) : Bool :=
  key = str name || foldName key = foldName (str name)

/-- Store a JSON value into a Go `string`: a JSON string is stored, `null` has no
effect, any other value is a type mismatch that leaves the field as it was. -/
def decodeString (v : JValue) (old : GoString) : GoString :=
  match v with
  | .string s => s
  | _ => old

/-- Store one object member into an `Error` struct (`json:"resource"`,
`json:"field"`, `json:"code"`); unknown members are skipped. -/
def decodeErrorMember (e : Error) (m : GoString × JValue) : Error :=
  if fieldMatches "resource" m.1 then { e with Resource := decodeString m.2 e.Resource }
  else if fieldMatches "field" m.1 then { e with Field := decodeString m.2 e.Field }
  else if fieldMatches "code" m.1 then { e with Code := decodeString m.2 e.Code }
  else e

/-- Store a JSON value into an `Error` struct: an object stores its members in
document order; `null` and values of any other kind leave the struct as it was. -/
def decodeError (v : JValue) (old : Error) : Error :=
  match v with
  | .object members => members.foldl decodeErrorMember old
  | _ => old

/-- Decode the items of a JSON array into the elements of a slice: item `i` is
decoded into the element already at index `i`, or into a zero element past the
old length. -/
def decodeErrorItems : List JValue → List Error → List Error
  | [], _ => []
  | v :: vs, [] => decodeError v {} :: decodeErrorItems vs []
  | v :: vs, e :: es => decodeError v e :: decodeErrorItems vs es

/-- Store a JSON value into a `[]Error`: an array stores its items, `null` sets the
slice to nil, any other value is a type mismatch that leaves the slice as it was.
The slots between the length and the capacity of the old slice are taken to be
zero, as they are when the slice started out nil and no longer array was stored
before. -/
def decodeErrors (v : JValue) (old : List Error) : List Error :=
  match v with
  | .null => []
  | .array items => decodeErrorItems items old
  | _ => old

/-- The state of `json.Unmarshal(data, errorResponse)` while it walks the members
of the top-level object: whether `errorResponse.Response` still points at the
response `r` handed to `CheckResponse`, the envelope, and the fields of `r`. -/
structure UnmarshalState where
  aliased : Bool
  env : ErrorResponse
  resp : HTTPResponse

/-- Store one member of the top-level object into the `ErrorResponse`. The field
`Response` has no tag, so a member named `Response` (in any case) selects it:
`null` sets the pointer to nil, any other value is decoded through the pointer
(into the pointee, or into a freshly allocated response when the pointer is nil)
by `httpInto`, the decoder for `http.Response`, which this development leaves
abstract. `Message` is `json:"message"`, `Errors` is `json:"errors"`. -/
def unmarshalMember (httpInto : JValue → Option HTTPResponse → HTTPResponse)
    (st : UnmarshalState) (m : GoString × JValue) : UnmarshalState :=
  if fieldMatches "Response" m.1 then
    match m.2 with
    | .null => { st with aliased := false, env := { st.env with Response := none } }
    | v =>
      if st.aliased then
        let r2 := httpInto v (some st.resp)
        { aliased := true, env := { st.env with Response := some r2 }, resp := r2 }
      else
        { st with env := { st.env with Response := some (httpInto v st.env.Response) } }
  else if fieldMatches "message" m.1 then
    { st with env := { st.env with Message := decodeString m.2 st.env.Message } }
  else if fieldMatches "errors" m.1 then
    { st with env := { st.env with Errors := decodeErrors m.2 st.env.Errors } }
  else st

/-- Function `json.Unmarshal(data, errorResponse)` where `json` is the reading of
`data`. Input that is not valid JSON is rejected before anything is stored; a
top-level value that is not an object stores nothing. The error result is
dropped by the only caller and is not modelled. -/
def json.Unmarshal (httpInto : JValue → Option HTTPResponse → HTTPResponse)
    (json : Option JValue) (st : UnmarshalState) : UnmarshalState :=
  match json with
  | some (.object members) => members.foldl (unmarshalMember httpInto) st
  | _ => st

/-! ## io -/

/-- Function `ioutil.ReadAll(r.Body)`: the bytes read and the read error, if any.
The slice returned is never nil. -/
def ioutil.ReadAll (b : Body) : GoString × Option GoString :=
  (b.data, b.readErr)

/-- Function `io.Copy(w, body)`: the sink after the copy and the error of the
copy. The bytes the body yields are written until the sink refuses more; a read
error surfaces after the bytes read before it have been written. -/
def io.Copy (w : Sink) (b : Body) : Sink × Option GoString :=
  match w.room with
  | none => ({ w with written := w.written ++ b.data }, b.readErr)
  | some k =>
    if b.data.length ≤ k then
      ({ written := w.written ++ b.data, room := some (k - b.data.length) }, b.readErr)
    else
      ({ written := w.written ++ b.data.take k, room := some 0 }, some (str "short write"))

/-! ## net/url -/

/-- The byte of an ASCII character. -/
def ch (c : Char) : UInt8 := c.toNat.toUInt8

/-- Function `strings.HasPrefix`. -/
def hasPrefix (s p : GoString) : Bool := s.take p.length == p

/-- Function `strings.Contains(s, string(b))` for a single byte. -/
def containsByte (s : GoString) (b : UInt8) : Bool := s.contains b

/-- Function `strings.Cut(s, string(sep))` for a single byte: the text before the
first `sep`, the text after it, and whether `sep` occurs. -/
def cut (sep : UInt8) : GoString → GoString × GoString × Bool
  | [] => ([], [], false)
  | c :: rest =>
    if c = sep then ([], rest, true)
    else
      let r := cut sep rest
      (c :: r.1, r.2.1, r.2.2)

/-- Function `strings.LastIndex(s, string(sep))` for a single byte; `none` is `-1`. -/
def lastIndex (sep : UInt8) : GoString → Option Nat
  | [] => none
  | c :: rest =>
    match lastIndex sep rest with
    | some i => some (i + 1)
    | none => if c = sep then some 0 else none

/-- Function `strings.Index(s, sub)`; `none` is `-1`. -/
def indexOf (sub : GoString) : GoString → Option Nat
  | [] => if sub = [] then some 0 else none
  | c :: rest =>
    if hasPrefix (c :: rest) sub then some 0
    else (indexOf sub rest).map (· + 1)

/-- The escaping modes of `net/url` (type `encoding`). -/
inductive Encoding where
  | encodePath
  | encodePathSegment
  | encodeHost
  | encodeZone
  | encodeUserPassword
  | encodeQueryComponent
  | encodeFragment
deriving DecidableEq, Repr

open Encoding

/-- Function `ishex`. -/
def ishex (c : UInt8) : Bool :=
  (ch '0' ≤ c && c ≤ ch '9') || (ch 'a' ≤ c && c ≤ ch 'f') || (ch 'A' ≤ c && c ≤ ch 'F')

/-- Function `unhex`. -/
def unhex (c : UInt8) : UInt8 :=
  if ch '0' ≤ c && c ≤ ch '9' then c - ch '0'
  else if ch 'a' ≤ c && c ≤ ch 'f' then c - ch 'a' + 10
  else if ch 'A' ≤ c && c ≤ ch 'F' then c - ch 'A' + 10
  else 0

/-- ASCII letter or digit. -/
def isAlnum (c : UInt8) : Bool :=
  (ch 'a' ≤ c && c ≤ ch 'z') || (ch 'A' ≤ c && c ≤ ch 'Z') || (ch '0' ≤ c && c ≤ ch '9')

/-- Function `shouldEscape(c, mode)`. -/
def shouldEscape (c : UInt8) (mode : Encoding) : Bool :=
  if isAlnum c then false
  else if (mode = encodeHost || mode = encodeZone) &&
      (str "!$&\x27()*+,;=:[]<>\"").contains c then false
  else if (str "-_.~").contains c then false
  else if (str "$&+,/:;=?@").contains c then
    match mode with
    | encodePath => c = ch '?'
    | encodePathSegment => c = ch '/' || c = ch ';' || c = ch ',' || c = ch '?'
    | encodeUserPassword => c = ch '@' || c = ch '/' || c = ch '?' || c = ch ':'
    | encodeQueryComponent => true
    | encodeFragment => false
    | _ => true
  else if mode = encodeFragment && (str "!()*").contains c then false
  else true

/-- The validation pass of `unescape(s, mode)`: `none` when every `%` starts a
well-formed escape that the mode admits and no byte is invalid for a host, else
the offending text. `skip` counts the hex digits of an escape still to be passed. -/
def unescapeCheck (mode : Encoding) : Nat → GoString → Option GoString
  | _, [] => none
  | skip + 1, _ :: rest => unescapeCheck mode skip rest
  | 0, c :: rest =>
    if c = ch '%' then
      match rest with
      | h1 :: h2 :: _ =>
        if !ishex h1 || !ishex h2 then some ((c :: rest).take 3)
        else if mode = encodeHost && unhex h1 < 8 && [c, h1, h2] != str "%25" then
          some [c, h1, h2]
        else if mode = encodeZone && [c, h1, h2] != str "%25" &&
            ((unhex h1 <<< 4) ||| unhex h2) != ch ' ' &&
            shouldEscape ((unhex h1 <<< 4) ||| unhex h2) encodeHost then
          some [c, h1, h2]
        else unescapeCheck mode 2 rest
      | _ => some ((c :: rest).take 3)
    else if c = ch '+' then unescapeCheck mode 0 rest
    else if (mode = encodeHost || mode = encodeZone) && c < 0x80 && shouldEscape c encodeHost then
      some [c]
    else unescapeCheck mode 0 rest

/-- The decoding pass of `unescape(s, mode)` on validated text. -/
def unescapeDecode (mode : Encoding) : Nat → GoString → GoString
  | _, [] => []
  | skip + 1, _ :: rest => unescapeDecode mode skip rest
  | 0, c :: rest =>
    if c = ch '%' then
      match rest with
      | h1 :: h2 :: _ => ((unhex h1 <<< 4) ||| unhex h2) :: unescapeDecode mode 2 rest
      | _ => c :: unescapeDecode mode 0 rest
    else if c = ch '+' then
      (if mode = encodeQueryComponent then ch ' ' else ch '+') :: unescapeDecode mode 0 rest
    else c :: unescapeDecode mode 0 rest

/-- Function `unescape(s, mode)`: the unescaped text, or the error. -/
def unescape (s : GoString) (mode : Encoding) : Except GoString GoString :=
  match unescapeCheck mode 0 s with
  | some bad => .error (str "invalid URL escape or host character: " ++ bad)
  | none => .ok (unescapeDecode mode 0 s)

/-- Upper-case hexadecimal digit of a nibble. -/
def upperhex (n : UInt8) : UInt8 :=
  if n < 10 then ch '0' + n else ch 'A' + (n - 10)

/-- Function `escape(s, mode)`. -/
def escape (s : GoString) (mode : Encoding) : GoString :=
  s.flatMap fun c =>
    if shouldEscape c mode then
      if c = ch ' ' && mode = encodeQueryComponent then [ch '+']
      else [ch '%', upperhex (c >>> 4), upperhex (c &&& 15)]
    else [c]

/-- Function `validEncoded(s, mode)`. -/
def validEncoded (s : GoString) (mode : Encoding) : Bool :=
  s.all fun c =>
    (str "!$&\x27()*+,;=:@[]%").contains c || !shouldEscape c mode


/-- Function `stringContainsCTLByte`. -/
def stringContainsCTLByte (s : GoString) : Bool :=
  s.any fun b => b < ch ' ' || b = 0x7f

/-- The scan of `getScheme(rawURL)` from index `i`: the scheme and the rest, or
the error `missing protocol scheme`. -/
def getSchemeFrom (rawURL : GoString) : Nat → GoString → Except GoString (GoString × GoString)
  | _, [] => .ok ([], rawURL)
  | i, c :: rest =>
    if (ch 'a' ≤ c && c ≤ ch 'z') || (ch 'A' ≤ c && c ≤ ch 'Z') then
      getSchemeFrom rawURL (i + 1) rest
    else if (ch '0' ≤ c && c ≤ ch '9') || c = ch '+' || c = ch '-' || c = ch '.' then
      if i = 0 then .ok ([], rawURL) else getSchemeFrom rawURL (i + 1) rest
    else if c = ch ':' then
      if i = 0 then .error (str "missing protocol scheme") else .ok (rawURL.take i, rest)
    else .ok ([], rawURL)

/-- Function `getScheme(rawURL)`. -/
def getScheme (rawURL : GoString) : Except GoString (GoString × GoString) :=
  getSchemeFrom rawURL 0 rawURL

/-- Function `strings.ToLower` on ASCII text. -/
def toLower (s : GoString) : GoString :=
  s.map fun b => if ch 'A' ≤ b && b ≤ ch 'Z' then b + 0x20 else b

/-- Function `validOptionalPort(port)`. -/
def validOptionalPort (port : GoString) : Bool :=
  match port with
  | [] => true
  | c :: digits => c = ch ':' && digits.all fun b => ch '0' ≤ b && b ≤ ch '9'

/-- Function `validUserinfo(s)`. -/
def validUserinfo (s : GoString) : Bool :=
  s.all fun r => isAlnum r || (str "-._:~!$&\x27()*+,;=%@").contains r

/-- Function `parseHost(host)`. -/
def parseHost (host : GoString) : Except GoString GoString :=
  if hasPrefix host (str "[") then
    match lastIndex (ch ']') host with
    | none => .error (str "missing ']' in host")
    | some i =>
      if !validOptionalPort (host.drop (i + 1)) then .error (str "invalid port after host")
      else
        match indexOf (str "%25") (host.take i) with
        | some zone =>
          match unescape (host.take zone) encodeHost with
          | .error e => .error e
          | .ok host1 =>
            match unescape ((host.take i).drop zone) encodeZone with
            | .error e => .error e
            | .ok host2 =>
              match unescape (host.drop i) encodeHost with
              | .error e => .error e
              | .ok host3 => .ok (host1 ++ host2 ++ host3)
        | none => unescape host encodeHost
  else
    match lastIndex (ch ':') host with
    | some i =>
      if !validOptionalPort (host.drop i) then .error (str "invalid port after host")
      else unescape host encodeHost
    | none => unescape host encodeHost

/-- Function `parseAuthority(authority)`: the user information and the host. -/
def parseAuthority (authority : GoString) : Except GoString (Option Userinfo × GoString) :=
  match lastIndex (ch '@') authority with
  | none =>
    match parseHost authority with
    | .error e => .error e
    | .ok host => .ok (none, host)
  | some i =>
    match parseHost (authority.drop (i + 1)) with
    | .error e => .error e
    | .ok host =>
      let userinfo := authority.take i
      if !validUserinfo userinfo then .error (str "net/url: invalid userinfo")
      else if !containsByte userinfo (ch ':') then
        match unescape userinfo encodeUserPassword with
        | .error e => .error e
        | .ok name => .ok (some { username := name, password := [], passwordSet := false }, host)
      else
        let c := cut (ch ':') userinfo
        match unescape c.1 encodeUserPassword with
        | .error e => .error e
        | .ok name =>
          match unescape c.2.1 encodeUserPassword with
          | .error e => .error e
          | .ok pw => .ok (some { username := name, password := pw, passwordSet := true }, host)

/-- Method `URL.setPath(p)`: the URL with `Path` and `RawPath` set, or the error. -/
def URL.setPath (u : URL) (p : GoString) : Except GoString URL :=
  match unescape p encodePath with
  | .error e => .error e
  | .ok path =>
    .ok { u with Path := path, RawPath := if p = escape path encodePath then [] else p }

/-- Method `URL.setFragment(f)`. -/
def URL.setFragment (u : URL) (f : GoString) : Except GoString URL :=
  match unescape f encodeFragment with
  | .error e => .error e
  | .ok frag =>
    .ok { u with Fragment := frag,
                 RawFragment := if f = escape frag encodeFragment then [] else f }

/-- The second half of `parse(rawURL, viaRequest)`: `url` holds the scheme and
the query, `rest` is the text between them. -/
def parseRest (url : URL) (rest : GoString) (viaRequest : Bool) : Except GoString URL :=
  if !hasPrefix rest (str "/") && url.Scheme != [] then
    .ok { url with Opaque := rest }
  else if !hasPrefix rest (str "/") && viaRequest then
    .error (str "invalid URI for request")
  else if !hasPrefix rest (str "/") && containsByte (cut (ch '/') rest).1 (ch ':') then
    .error (str "first path segment in URL cannot contain colon")
  else if (url.Scheme != [] || (!viaRequest && !hasPrefix rest (str "///"))) &&
      hasPrefix rest (str "//") then
    let after := rest.drop 2
    let authority :=
      match indexOf (str "/") after with
      | some i => after.take i
      | none => after
    let rest2 :=
      match indexOf (str "/") after with
      | some i => after.drop i
      | none => []
    match parseAuthority authority with
    | .error e => .error e
    | .ok (user, host) => URL.setPath { url with User := user, Host := host } rest2
  else if url.Scheme != [] && hasPrefix rest (str "/") then
    URL.setPath { url with OmitHost := true } rest
  else URL.setPath url rest

/-- Function `parse(rawURL, viaRequest)`: a URL without `#fragment`. -/
def parse (rawURL : GoString) (viaRequest : Bool) : Except GoString URL :=
  if stringContainsCTLByte rawURL then
    .error (str "net/url: invalid control character in URL")
  else if rawURL = [] && viaRequest then .error (str "empty url")
  else if rawURL = str "*" then .ok { Path := str "*" }
  else
    match getScheme rawURL with
    | .error e => .error e
    | .ok (scheme, rest) =>
      if rest.getLast? = some (ch '?') && rest.count (ch '?') = 1 then
        parseRest { Scheme := toLower scheme, ForceQuery := true } rest.dropLast viaRequest
      else
        parseRest { Scheme := toLower scheme, RawQuery := (cut (ch '?') rest).2.1 }
          (cut (ch '?') rest).1 viaRequest

/-- Function `url.Parse(rawURL)`. -/
def url.Parse (rawURL : GoString) : Except GoString URL :=
  let c := cut (ch '#') rawURL
  match parse c.1 false with
  | .error e => .error (str "parse: " ++ e)
  | .ok u =>
    if c.2.1 = [] then .ok u
    else
      match URL.setFragment u c.2.1 with
      | .error e => .error (str "parse: " ++ e)
      | .ok u2 => .ok u2

/-- Method `Userinfo.String()`. -/
def Userinfo.String (u : Userinfo) : GoString :=
  escape u.username encodeUserPassword ++
    (if u.passwordSet then str ":" ++ escape u.password encodeUserPassword else [])

/-- Method `URL.EscapedPath()`. -/
def URL.EscapedPath (u : URL) : GoString :=
  if u.RawPath != [] && validEncoded u.RawPath encodePath &&
      (unescape u.RawPath encodePath).toOption = some u.Path then u.RawPath
  else if u.Path = str "*" then str "*"
  else escape u.Path encodePath

/-- Method `URL.EscapedFragment()`. -/
def URL.EscapedFragment (u : URL) : GoString :=
  if u.RawFragment != [] && validEncoded u.RawFragment encodeFragment &&
      (unescape u.RawFragment encodeFragment).toOption = some u.Fragment then u.RawFragment
  else escape u.Fragment encodeFragment

/-- Method `URL.String()`. -/
def URL.String (u : URL) : GoString :=
  let buf0 : GoString := if u.Scheme != [] then u.Scheme ++ str ":" else []
  let buf1 : GoString :=
    if u.Opaque != [] then buf0 ++ u.Opaque
    else
      let buf2 : GoString :=
        if u.Scheme != [] || u.Host != [] || u.User.isSome then
          if u.OmitHost && u.Host = [] && u.User.isNone then buf0
          else
            buf0 ++
            (if u.Host != [] || u.Path != [] || u.User.isSome then str "//" else []) ++
            (match u.User with
              | some ui => Userinfo.String ui ++ str "@"
              | none => []) ++
            (if u.Host != [] then escape u.Host encodeHost else [])
        else buf0
      let path := u.EscapedPath
      let buf3 : GoString :=
        if path != [] && path.head? != some (ch '/') && u.Host != [] then buf2 ++ str "/"
        else buf2
      let buf4 : GoString :=
        if buf3 = [] && containsByte (cut (ch '/') path).1 (ch ':') then str "./" else buf3
      buf4 ++ path
  let buf5 : GoString :=
    if u.ForceQuery || u.RawQuery != [] then buf1 ++ str "?" ++ u.RawQuery else buf1
  if u.Fragment != [] then buf5 ++ str "#" ++ u.EscapedFragment else buf5

/-- Function `strings.Split(s, string(sep))` for a single byte. -/
def split (sep : UInt8) : GoString → List GoString
  | [] => [[]]
  | c :: rest =>
    if c = sep then [] :: split sep rest
    else
      match split sep rest with
      | seg :: segs => (c :: seg) :: segs
      | [] => [[c]]

/-- One turn of the loop of `resolvePath`: the builder `dst` and the flag `first`
after the path element `elem`. -/
def resolveStep (st : GoString × Bool) (elem : GoString) : GoString × Bool :=
  if elem = str "." then (st.1, false)
  else if elem = str ".." then
    match lastIndex (ch '/') (st.1.drop 1) with
    | none => (str "/", true)
    | some index => (str "/" ++ (st.1.drop 1).take index, st.2)
  else ((if !st.2 then st.1 ++ str "/" else st.1) ++ elem, false)

/-- Function `resolvePath(base, ref)`. -/
def resolvePath (base ref : GoString) : GoString :=
  let full : GoString :=
    if ref = [] then base
    else if ref.head? != some (ch '/') then
      (match lastIndex (ch '/') base with
        | some i => base.take (i + 1)
        | none => []) ++ ref
    else ref
  if full = [] then []
  else
    let elems := split (ch '/') full
    let dst := (elems.foldl resolveStep (str "/", true)).1
    let last := elems.getLast?.getD []
    let r := if last = str "." || last = str ".." then dst ++ str "/" else dst
    if r.length > 1 && (r.drop 1).head? = some (ch '/') then r.drop 1 else r

/-- The assignment `url.setPath(p)` whose error result is discarded: the path is
left as it was when `p` does not unescape. -/
def URL.withPath (u : URL) (p : GoString) : URL :=
  match URL.setPath u p with
  | .ok u2 => u2
  | .error _ => u

/-- Method `u.ResolveReference(ref)` (RFC 3986, section 5.2). -/
def URL.ResolveReference (u ref : URL) : URL :=
  let url : URL := if ref.Scheme = [] then { ref with Scheme := u.Scheme } else ref
  if ref.Scheme != [] || ref.Host != [] || ref.User.isSome then
    URL.withPath url (resolvePath ref.EscapedPath [])
  else if ref.Opaque != [] then
    { url with User := none, Host := [], Path := [] }
  else
    let url2 : URL :=
      if ref.Path = [] && !ref.ForceQuery && ref.RawQuery = [] then
        if ref.Fragment = [] then
          { url with RawQuery := u.RawQuery, Fragment := u.Fragment, RawFragment := u.RawFragment }
        else { url with RawQuery := u.RawQuery }
      else url
    if ref.Path = [] && u.Opaque != [] then
      { url2 with Opaque := u.Opaque, User := none, Host := [], Path := [] }
    else
      URL.withPath { url2 with Host := u.Host, User := u.User }
        (resolvePath u.EscapedPath ref.EscapedPath)

/-! ## music163.go -/

/-- Function `CheckResponse(r)`. Returns the fields of `r` after the call (they
change only when the body stores into `Response`) and the error. -/
def CheckResponse (httpInto : JValue → Option HTTPResponse → HTTPResponse)
    (r : HTTPResponse) : HTTPResponse × Option GoError :=
  if 200 ≤ r.StatusCode ∧ r.StatusCode ≤ 299 then
    (r, none)
  else
    let errorResponse : ErrorResponse := { Response := some r }
    match ioutil.ReadAll r.Body with
    | (_, none) =>
      let st := json.Unmarshal httpInto r.Body.json ⟨true, errorResponse, r⟩
      (st.resp, some (.api st.env))
    | (_, some _) => (r, some (.api errorResponse))

/-- Function `newResponse(r)`. -/
def newResponse (r : HTTPResponse) : Response := { Response := r }

/-- Method `Client.Do(req, v)`: the response, the error, and the destination after
the call. `decode` is `json.NewDecoder(resp.Body).Decode(v)` for the result type
`V`: the value stored and the decoder's error. -/
def Client.Do {V : Type} (httpInto : JValue → Option HTTPResponse → HTTPResponse)
    (decode : Body → V → V × Option GoString)
    (c : Client) (req : Request) (v : Dest V) : Option Response × Option GoError × Dest V :=
  match c.client req with
  | .error err => (none, some (.transport err), v)
  | .ok resp =>
    match CheckResponse httpInto resp with
    | (resp1, some err) => (some (newResponse resp1), some err, v)
    | (resp1, none) =>
      match v with
      | .none => (some (newResponse resp1), none, v)
      | .sink w => (some (newResponse resp1), none, .sink (io.Copy w resp1.Body).1)
      | .ptr x =>
        let d := decode resp1.Body x
        (some (newResponse resp1), d.2.map GoError.decoding, .ptr d.1)

/-- Method `Error.Error()`: `fmt.Sprintf("%v error caused by %v filed on %v resource",
e.Code, e.Field, e.Resource)`. -/
def Error.Error (e : Error) : GoString :=
  e.Code ++ str " error caused by " ++ e.Field ++ str " filed on " ++ e.Resource ++
    str " resource"

/-- The verb `%+v` of `fmt` on a value of the struct type `Error`. The method
`Error()` has a pointer receiver, so it is not in the method set of the value and
the struct is printed field by field. -/
def fmtErrorStruct (e : Error) : GoString :=
  str "\x7bResource:" ++ e.Resource ++ str " Field:" ++ e.Field ++ str " Code:" ++ e.Code ++
    str "\x7d"

/-- The verb `%+v` of `fmt` on a `[]Error`: the elements between brackets,
separated by one space. -/
def fmtErrors (es : List Error) : GoString :=
  str "[" ++ (str " ").intercalate (es.map fmtErrorStruct) ++ str "]"

/-- The verb `%d` of `fmt` on an `int`. -/
def fmtInt (n : Int) : GoString := str (toString n)

/-- Method `ErrorResponse.Error()`: `fmt.Sprintf("%v %v: %d %v %+v", ...)`.
`none` is the nil-pointer panic when `r.Response` or `r.Response.Request` is nil. -/
def ErrorResponse.Error (r : ErrorResponse) : Option GoString :=
  match r.Response with
  | none => none
  | some resp =>
    match resp.Request with
    | none => none
    | some req =>
      some (req.Method ++ str " " ++ URL.String req.URL ++ str ": " ++
        fmtInt resp.StatusCode ++ str " " ++ r.Message ++ str " " ++ fmtErrors r.Errors)

/-- The method `Error()` of an `error` value. -/
def GoError.Error : GoError → Option GoString
  | .api e => e.Error
  | .transport msg => some msg
  | .decoding msg => some msg
  | .parse msg => some msg
  | .encoding msg => some msg

/-- The `opt interface{}` argument of `addOptions`: the nil interface, a nil
pointer of some pointer type, or any other value (a struct or a pointer to one,
in the intended use). -/
inductive Options (O : Type) where
  | nilInterface : Options O
  | nilPointer : Options O
  | value (o : O) : Options O

/-- Function `addOptions(s, opt)`. `queryEncode opt` is `query.Values(opt)` followed
by `Encode()`, from the package `go-querystring`, which this development leaves
abstract: the encoded query string, or the error of `query.Values`. -/
def addOptions {O : Type} (queryEncode : Options O → Except GoString GoString)
    (s : GoString) (opt : Options O) : GoString × Option GoError :=
  match opt with
  | .nilPointer => (s, none)
  | _ =>
    match url.Parse s with
    | .error err => (s, some (.parse err))
    | .ok u =>
      match queryEncode opt with
      | .error err => (s, some (.encoding err))
      | .ok qs => (URL.String { u with RawQuery := qs }, none)

/-- Constant `defaultBaseURL`. -/
def defaultBaseURL : GoString := str "http://music.163.com/api"

/-- Constant `userAgent`. -/
def userAgent : GoString :=
  str "Mozilla/5.0 (Windows; U; Windows NT 6.1; en-US; rv:1.9.1.6) Gecko/20091201 Firefox/3.5.6"

/-- Constant `referer`. -/
def referer : GoString := str "http://music.163.com/"

/-- Function `NewClient(httpClient)`, with the transport of the client that is
used (the one given, or that of `http.DefaultClient`). The service fields are
not modelled. -/
def NewClient (transport : Request → Except GoString HTTPResponse) : Client :=
  { client := transport,
    BaseURL := match url.Parse defaultBaseURL with
      | .ok u => u
      | .error _ => {},
    UserAgent := userAgent }

/-- Token characters of an HTTP method (`httpguts.IsTokenRune`). -/
def isTokenByte (b : UInt8) : Bool :=
  isAlnum b || (str "!#$%&\x27*+-.^_\x60|~").contains b

/-- Function `removeEmptyPort(host)` of `net/http`: strips a trailing `:` that is
an empty port. -/
def removeEmptyPort (host : GoString) : GoString :=
  let hasPort : Bool :=
    match lastIndex (ch ':') host, lastIndex (ch ']') host with
    | some i, some j => decide (j < i)
    | some _, none => true
    | none, _ => false
  if hasPort && host.getLast? = some (ch ':') then host.dropLast else host

/-- The first byte of a scheme is a letter and the others are letters, digits,
`+`, `-` or `.`, as `getScheme` scans them. -/
def schemeBytes : GoString → Bool
  | [] => false
  | c :: rest =>
    ((ch 'a' ≤ c && c ≤ ch 'z') || (ch 'A' ≤ c && c ≤ ch 'Z')) &&
    rest.all fun b =>
      ((ch 'a' ≤ b && b ≤ ch 'z') || (ch 'A' ≤ b && b ≤ ch 'Z')) ||
      ((ch '0' ≤ b && b ≤ ch '9') || b = ch '+' || b = ch '-' || b = ch '.')

/-- A base URL in the form that rendering and parsing keep: an absolute
hierarchical URL (a scheme, in lower case; not opaque) without user information,
whose host is not empty, needs no escaping, parses to itself and has no empty
port. The base URL of `NewClient` is of this form, and so is that of a local
server such as `http://127.0.0.1:8080/`. -/
def canonicalBase (u : URL) : Bool :=
  schemeBytes u.Scheme && toLower u.Scheme == u.Scheme && u.Opaque == [] && u.User.isNone &&
  u.Host != [] && u.Host.all (fun b => !shouldEscape b Encoding.encodeHost) &&
  (parseHost u.Host).toOption == some u.Host && removeEmptyPort u.Host == u.Host

/-- Function `http.NewRequest(method, url, body)`: the method is checked, the URL
text is parsed, an empty port is dropped from the host. -/
def http.NewRequest (method urlText body : GoString) : Except GoString Request :=
  let m := if method = [] then str "GET" else method
  if !(m.all isTokenByte) then .error (str "net/http: invalid method")
  else
    match url.Parse urlText with
    | .error err => .error err
    | .ok u => .ok { Method := m, URL := { u with Host := removeEmptyPort u.Host }, Body := body }

/-- Method `Client.NewRequest(method, urlStr, body)`. `jsonEncode` is
`json.NewEncoder(buf).Encode(body)` for the body type `B`; `body = none` is the
nil interface. The header names are in the canonical form `Header.Add` gives them. -/
def Client.NewRequest {B : Type} (jsonEncode : B → Except GoString GoString)
    (c : Client) (method urlStr : GoString) (body : Option B) : Except GoError Request :=
  match url.Parse urlStr with
  | .error err => .error (.parse err)
  | .ok rel =>
    let u := c.BaseURL.ResolveReference rel
    let encoded : Except GoString GoString :=
      match body with
      | none => .ok []
      | some b => jsonEncode b
    match encoded with
    | .error err => .error (.encoding err)
    | .ok buf =>
      match http.NewRequest method (URL.String u) buf with
      | .error err => .error (.parse err)
      | .ok req =>
        .ok { req with
          Header := req.Header ++ [(str "Referer", referer), (str "User-Agent", c.UserAgent)] }

/-! ## Concrete scenarios -/

/-- The zero value of `http.Response`. -/
def zeroHTTPResponse : HTTPResponse :=
  { StatusCode := 0, Body := { data := [] }, Request := none }

/-- A decoder for `http.Response` that stores nothing, as `encoding/json` does for
an object none of whose members names a field of `http.Response`. -/
def storeNothing (_ : JValue) (into : Option HTTPResponse) : HTTPResponse :=
  into.getD zeroHTTPResponse

/-- A result decoder for the result type `GoString` that stores the body's bytes
and fails when the body is not valid JSON. -/
def rawDecode (b : Body) (_ : GoString) : GoString × Option GoString :=
  (b.data, if b.json.isSome then none else some (str "invalid character"))

/-- The request `GET http://music.163.com/api/song/detail`. -/
def detailRequest : Request :=
  { Method := str "GET",
    URL := { Scheme := str "http", Host := str "music.163.com", Path := str "/api/song/detail" } }

/-- A client whose transport answers every request with status `code` and the
given body. -/
def clientAnswering (code : Int) (body : Body) : Client :=
  { client := fun req => .ok { StatusCode := code, Body := body, Request := some req },
    BaseURL := { Scheme := str "http", Host := str "music.163.com", Path := str "/api" },
    UserAgent := str "Mozilla/5.0" }

/-- A client whose transport fails on every request. -/
def clientUnreachable : Client :=
  { client := fun _ => .error (str "dial tcp: connection refused"),
    BaseURL := { Scheme := str "http", Host := str "music.163.com", Path := str "/api" },
    UserAgent := str "Mozilla/5.0" }

/-- The JSON object `\x7b"resource": ..., "field": ..., "code": ...\x7d` of a sub-error. -/
def Error.toJSON (e : Music163.Error) : JValue :=
  .object [(str "resource", .string e.Resource), (str "field", .string e.Field),
    (str "code", .string e.Code)]

/-- The JSON object `\x7b"message": msg, "errors": [...]\x7d` of an error envelope. -/
def envelopeJSON (msg : GoString) (errs : List Error) : JValue :=
  .object [(str "message", .string msg), (str "errors", .array (errs.map Error.toJSON))]

/-- The body of the specification's 404 scenario. -/
def notFoundBody : Body :=
  { data := str "\x7b\"message\":\"not found\",\"errors\":[\x7b\"resource\":\"song\",\"field\":\"id\",\"code\":\"missing\"\x7d]\x7d",
    json := some (envelopeJSON (str "not found")
      [{ Resource := str "song", Field := str "id", Code := str "missing" }]) }

/-- A body that sets the member `Response` to `null`. -/
def nullResponseBody : Body :=
  { data := str "\x7b\"Response\":null\x7d",
    json := some (.object [(str "Response", .null)]) }

/-- An options type with no fields, for `addOptions`. -/
abbrev NoFields := Unit

/-- The query encoder on an absent options value as `go-querystring` 1.x has it:
`query.Values(nil)` is empty and encodes to the empty string. -/
def queryEncodeEmpty (_ : Options NoFields) : Except GoString GoString := .ok []

/-- The query encoder on an absent options value as earlier `go-querystring` has
it: `query.Values(nil)` fails, the nil interface not being a struct. -/
def queryEncodeStrict (opt : Options NoFields) : Except GoString GoString :=
  match opt with
  | .nilInterface => .error (str "query: Values() expects struct input. Got invalid")
  | _ => .ok []

/-- A JSON encoder for request bodies that are already JSON text. -/
def jsonEncodeText (b : GoString) : Except GoString GoString := .ok (b ++ str "\n")

/-! ## Theorems: error classification and dispatch -/

/-- C1. `CheckResponse` returns the nil error exactly when the status code lies in
`[200, 299]`, and for every other status code the error it returns is an
`ErrorResponse`. -/
theorem CheckResponse_success_iff (httpInto : JValue → Option HTTPResponse → HTTPResponse)
    (r : HTTPResponse) :
    ((CheckResponse httpInto r).2 = none ↔ (200 ≤ r.StatusCode ∧ r.StatusCode ≤ 299)) ∧
    (¬ (200 ≤ r.StatusCode ∧ r.StatusCode ≤ 299) ↔
      ∃ e : ErrorResponse, (CheckResponse httpInto r).2 = some (GoError.api e)) := by
  unfold CheckResponse
  by_cases h : 200 ≤ r.StatusCode ∧ r.StatusCode ≤ 299
  · simp [h]
  · simp only [h, if_false, ioutil.ReadAll]
    cases r.Body.readErr <;> simp

/-- What `Do` returns when `CheckResponse` reports an error. -/
theorem Do_classified {V : Type} (httpInto : JValue → Option HTTPResponse → HTTPResponse)
    (decode : Body → V → V × Option GoString) (c : Client) (req : Request) (v : Dest V)
    (resp r1 : HTTPResponse) (err : GoError) (hresp : c.client req = .ok resp)
    (hcr : CheckResponse httpInto resp = (r1, some err)) :
    Client.Do httpInto decode c req v = (some (newResponse r1), some err, v) := by
  simp only [Client.Do, hresp, hcr]

/-- C2. When the transport delivers a response whose status code lies outside
`[200, 299]`, `Do` returns exactly the non-nil error of `CheckResponse` and the
destination is what it was before the call, whichever kind it is. -/
theorem Do_failure_status {V : Type} (httpInto : JValue → Option HTTPResponse → HTTPResponse)
    (decode : Body → V → V × Option GoString) (c : Client) (req : Request) (v : Dest V)
    (resp : HTTPResponse) (hresp : c.client req = .ok resp)
    (hcode : ¬ (200 ≤ resp.StatusCode ∧ resp.StatusCode ≤ 299)) :
    ∃ err : GoError,
      (CheckResponse httpInto resp).2 = some err ∧
      (Client.Do httpInto decode c req v).2.1 = some err ∧
      (Client.Do httpInto decode c req v).2.2 = v := by
  obtain ⟨e, he⟩ := (CheckResponse_success_iff httpInto resp).2.1 hcode
  have hdo := Do_classified httpInto decode c req v resp (CheckResponse httpInto resp).1
    (GoError.api e) hresp (Prod.ext rfl he)
  exact ⟨GoError.api e, he, by rw [hdo], by rw [hdo]⟩

/-- Witness of C2: a 404 answer with a byte sink as destination. -/
theorem Do_failure_status_witness :
    ∃ err : GoError,
      (CheckResponse storeNothing
        { StatusCode := 404, Body := { data := [] }, Request := some detailRequest }).2 = some err ∧
      (Client.Do storeNothing rawDecode (clientAnswering 404 { data := [] }) detailRequest
        (Dest.sink {})).2.1 = some err ∧
      (Client.Do storeNothing rawDecode (clientAnswering 404 { data := [] }) detailRequest
        (Dest.sink {})).2.2 = Dest.sink {} :=
  Do_failure_status storeNothing rawDecode (clientAnswering 404 { data := [] }) detailRequest
    (Dest.sink {}) { StatusCode := 404, Body := { data := [] }, Request := some detailRequest }
    rfl (by decide)

/-- On a success status with a byte sink that never refuses a write and a body
that reads to end-of-file, `Do` appends the whole body to the sink, byte for
byte, and returns the nil error. -/
theorem Do_sink_verbatim {V : Type} (httpInto : JValue → Option HTTPResponse → HTTPResponse)
    (decode : Body → V → V × Option GoString) (c : Client) (req : Request)
    (resp : HTTPResponse) (old : GoString) (hresp : c.client req = .ok resp)
    (hcode : 200 ≤ resp.StatusCode ∧ resp.StatusCode ≤ 299) :
    (Client.Do httpInto decode c req (Dest.sink { written := old, room := none })).2.2 =
      Dest.sink { written := old ++ resp.Body.data, room := none } := by
  unfold Client.Do
  rw [hresp]
  simp [CheckResponse, hcode, io.Copy]

/-- C5 (the code at the failing inputs). With status 200 and a byte sink as
destination, a body whose read fails after three bytes, and a sink that refuses
the third byte, both make `Do` return the nil error: the error of `io.Copy` is
dropped. -/
theorem Do_sink_interrupted_returns_nil :
    (Client.Do storeNothing rawDecode
        (clientAnswering 200 { data := [1, 2, 3], readErr := some (str "unexpected EOF") })
        detailRequest (Dest.sink {})).2 = (none, Dest.sink { written := [1, 2, 3] }) ∧
    (Client.Do storeNothing rawDecode
        (clientAnswering 200 { data := [1, 2, 3] })
        detailRequest (Dest.sink { room := some 2 })).2 =
      (none, Dest.sink { written := [1, 2], room := some 0 }) := by
  constructor <;> rfl

/-- C10 (counterexample). When the transport fails, `Do` returns an error and the
nil response. -/
theorem Do_transport_error_nil_response :
    (Client.Do storeNothing rawDecode clientUnreachable detailRequest (Dest.ptr [])).1 = none ∧
    (Client.Do storeNothing rawDecode clientUnreachable detailRequest (Dest.ptr [])).2.1 =
      some (GoError.transport (str "dial tcp: connection refused")) := by
  constructor <;> rfl

/-- C10 (amended). Whenever the transport delivers a response, `Do` returns a
non-nil `Response` wrapping it, with or without an error: the wrapped response
is the one delivered, as `CheckResponse` leaves it, and on a success status (a
decode failure included) it is the delivered response unchanged. Whenever the
transport fails, `Do` returns the nil response together with the transport's
error, and the destination as it was. -/
theorem Do_returns_response {V : Type} (httpInto : JValue → Option HTTPResponse → HTTPResponse)
    (decode : Body → V → V × Option GoString) (c : Client) (req : Request) (v : Dest V) :
    (∀ resp : HTTPResponse, c.client req = .ok resp →
      (Client.Do httpInto decode c req v).1 =
          some (newResponse (CheckResponse httpInto resp).1) ∧
      ((200 ≤ resp.StatusCode ∧ resp.StatusCode ≤ 299) →
        (Client.Do httpInto decode c req v).1 = some (newResponse resp))) ∧
    (∀ err : GoString, c.client req = .error err →
      Client.Do httpInto decode c req v = (none, some (GoError.transport err), v)) := by
  refine ⟨fun resp hresp => ?_, fun err herr => ?_⟩
  · have key : (Client.Do httpInto decode c req v).1 =
        some (newResponse (CheckResponse httpInto resp).1) := by
      cases hcr : CheckResponse httpInto resp with
      | mk r1 oerr =>
        cases oerr with
        | some err => rw [Do_classified httpInto decode c req v resp r1 err hresp hcr]
        | none => cases v <;> simp only [Client.Do, hresp, hcr]
    refine ⟨key, fun hcode => ?_⟩
    rw [key]
    simp [CheckResponse, hcode]
  · simp only [Client.Do, herr]

/-- Witness of C10 (amended): a 200 answer whose body is not JSON, decoded into a
result pointer, where the decode error comes with the response; and a transport
that refuses the connection, with a byte sink as destination. -/
theorem Do_returns_response_witness :
    ((Client.Do storeNothing rawDecode (clientAnswering 200 { data := str "oops" }) detailRequest
        (Dest.ptr [])).1 =
      some (newResponse (CheckResponse storeNothing
        { StatusCode := 200, Body := { data := str "oops" }, Request := some detailRequest }).1) ∧
    ((200 ≤ (200 : Int) ∧ (200 : Int) ≤ 299) →
      (Client.Do storeNothing rawDecode (clientAnswering 200 { data := str "oops" }) detailRequest
        (Dest.ptr [])).1 =
      some (newResponse
        { StatusCode := 200, Body := { data := str "oops" }, Request := some detailRequest }))) ∧
    Client.Do storeNothing rawDecode clientUnreachable detailRequest (Dest.sink {}) =
      (none, some (GoError.transport (str "dial tcp: connection refused")), Dest.sink {}) :=
  ⟨(Do_returns_response storeNothing rawDecode (clientAnswering 200 { data := str "oops" })
      detailRequest (Dest.ptr [])).1
      { StatusCode := 200, Body := { data := str "oops" }, Request := some detailRequest } rfl,
   (Do_returns_response storeNothing rawDecode clientUnreachable detailRequest (Dest.sink {})).2
      (str "dial tcp: connection refused") rfl⟩

/-! ## Theorems: query encoding and request building -/

/-- C3. With a nil pointer as options value, `addOptions` returns the path it was
given and the nil error, whatever the path is (valid URL reference or not). -/
theorem addOptions_nilPointer {O : Type} (queryEncode : Options O → Except GoString GoString)
    (s : GoString) :
    addOptions queryEncode s Options.nilPointer = (s, none) := rfl

/-- C4 (counterexample). With the nil interface as options value `addOptions` is
not the identity: the path `/a?x=1` comes back as `/a` when the query encoder
accepts the absent options, and with an error when it rejects them; and the
text `:`, which is not a URL reference, comes back with an error. -/
theorem addOptions_nilInterface_not_identity :
    addOptions queryEncodeEmpty (str "/a?x=1") Options.nilInterface = (str "/a", none) ∧
    (addOptions queryEncodeStrict (str "/a?x=1") Options.nilInterface).2.isSome = true ∧
    (addOptions queryEncodeEmpty (str ":") Options.nilInterface).2.isSome = true := by
  refine ⟨?_, ?_, ?_⟩ <;> rfl

/-- C4 (amended). With the nil interface as options value, `addOptions` fails with
the parse error when the path is not a URL reference; when the path parses to `u`
and the absent options encode to the empty query, it returns the nil error and
the rendering of `u` with its query component emptied; and whenever it returns
an error the string it returns is the path it was given. -/
theorem addOptions_nilInterface {O : Type} (queryEncode : Options O → Except GoString GoString)
    (s : GoString) :
    (∀ err, url.Parse s = .error err →
      addOptions queryEncode s Options.nilInterface = (s, some (GoError.parse err))) ∧
    (∀ u, url.Parse s = .ok u → queryEncode Options.nilInterface = .ok [] →
      addOptions queryEncode s Options.nilInterface =
        (URL.String { u with RawQuery := [] }, none)) ∧
    ((addOptions queryEncode s Options.nilInterface).2 ≠ none →
      (addOptions queryEncode s Options.nilInterface).1 = s) := by
  refine ⟨?_, ?_, ?_⟩
  · intro err h
    simp only [addOptions, h]
  · intro u h hq
    simp only [addOptions, h, hq]
  · intro h
    unfold addOptions at h ⊢
    cases hp : url.Parse s with
    | error err => simp only [hp]
    | ok u =>
      cases hq : queryEncode Options.nilInterface with
      | error err => simp only [hp, hq]
      | ok qs => simp [hp, hq] at h

/-- Witness of C4 (amended): the search path without options comes back as it is. -/
theorem addOptions_nilInterface_witness :
    addOptions queryEncodeEmpty (str "/search/suggest/web") Options.nilInterface =
      (URL.String { ({ Path := str "/search/suggest/web" } : URL) with RawQuery := [] }, none) :=
  (addOptions_nilInterface queryEncodeEmpty (str "/search/suggest/web")).2.1
    { Path := str "/search/suggest/web" } rfl rfl

/-- Setting the path leaves the scheme and the host alone. -/
theorem withPath_scheme_host (u : URL) (p : GoString) :
    (u.withPath p).Scheme = u.Scheme ∧ (u.withPath p).Host = u.Host := by
  unfold URL.withPath URL.setPath
  cases unescape p encodePath <;> exact ⟨rfl, rfl⟩

/-- Resolving a reference without a scheme takes the scheme of the base. -/
theorem ResolveReference_scheme (u ref : URL) (hs : ref.Scheme = []) :
    (u.ResolveReference ref).Scheme = u.Scheme := by
  unfold URL.ResolveReference
  simp only [hs, if_true]
  split_ifs <;> simp [(withPath_scheme_host _ _).1]

/-- Resolving a reference without scheme and authority against a base that is not
opaque takes the host of the base. -/
theorem ResolveReference_host (u ref : URL) (hs : ref.Scheme = []) (hh : ref.Host = [])
    (hu : ref.User = none) (ho : ref.Opaque = []) (hb : u.Opaque = []) :
    (u.ResolveReference ref).Host = u.Host := by
  unfold URL.ResolveReference
  simp only [hs, hh, hu, ho, hb, if_true]
  split_ifs <;> simp_all [(withPath_scheme_host _ _).2]

/-- A successful `setPath` changes only the path. -/
theorem setPath_ok (u u2 : URL) (p : GoString) (h : URL.setPath u p = .ok u2) :
    u2.Scheme = u.Scheme ∧ u2.Opaque = u.Opaque ∧ u2.Host = u.Host ∧ u2.User = u.User := by
  unfold URL.setPath at h
  cases hp : unescape p encodePath with
  | error e => simp [hp] at h
  | ok path =>
    simp only [hp, Except.ok.injEq] at h
    subst h
    exact ⟨rfl, rfl, rfl, rfl⟩

/-- A successful `setFragment` changes only the fragment. -/
theorem setFragment_ok (u u2 : URL) (f : GoString) (h : URL.setFragment u f = .ok u2) :
    u2.Scheme = u.Scheme ∧ u2.Opaque = u.Opaque ∧ u2.Host = u.Host ∧ u2.User = u.User := by
  unfold URL.setFragment at h
  cases hp : unescape f encodeFragment with
  | error e => simp [hp] at h
  | ok frag =>
    simp only [hp, Except.ok.injEq] at h
    subst h
    exact ⟨rfl, rfl, rfl, rfl⟩

/-- The second half of `parse` keeps the scheme, and leaves a URL without a
scheme not opaque. -/
theorem parseRest_ok (url u : URL) (rest : GoString) (v : Bool)
    (h : parseRest url rest v = .ok u) (ho : url.Opaque = []) :
    u.Scheme = url.Scheme ∧ (u.Scheme = [] → u.Opaque = []) := by
  unfold parseRest at h
  split_ifs at h with c1 c2 c3 c4 c5
  · simp only [Except.ok.injEq] at h
    subst h
    simp at c1
    exact ⟨rfl, fun hs => absurd hs c1.2⟩
  · simp only at h
    split at h
    · simp at h
    · have hp := setPath_ok _ _ _ h
      simp only at hp
      exact ⟨hp.1, fun _ => hp.2.1.trans ho⟩
  · have hp := setPath_ok _ _ _ h
    exact ⟨hp.1, fun _ => hp.2.1.trans ho⟩
  · have hp := setPath_ok _ _ _ h
    exact ⟨hp.1, fun _ => hp.2.1.trans ho⟩

/-- A URL that `url.Parse` returns without a scheme is not opaque. -/
theorem Parse_opaque_of_no_scheme (raw : GoString) (u : URL)
    (h : url.Parse raw = .ok u) (hs : u.Scheme = []) : u.Opaque = [] := by
  have hparse : ∀ r w, parse r false = .ok w → w.Scheme = [] → w.Opaque = [] := by
    intro r w hw hws
    unfold parse at hw
    split_ifs at hw with h1 h2 h3
    · simp only [Except.ok.injEq] at hw
      subst hw
      rfl
    · split at hw
      · simp at hw
      · split_ifs at hw
        · exact (parseRest_ok _ _ _ _ hw rfl).2 hws
        · exact (parseRest_ok _ _ _ _ hw rfl).2 hws
  unfold url.Parse at h
  simp only at h
  split at h
  · simp at h
  · rename_i w hw
    split_ifs at h
    · simp only [Except.ok.injEq] at h
      subst h
      exact hparse _ _ hw hs
    · split at h
      · simp at h
      · rename_i u2 hf
        simp only [Except.ok.injEq] at h
        subst h
        have hfo := setFragment_ok _ _ _ hf
        rw [hfo.2.1]
        exact hparse _ _ hw (hfo.1 ▸ hs)

/-- The URL of a request made by `http.NewRequest` is the parse of the URL text,
with an empty port dropped from the host. -/
theorem http_NewRequest_url (method urlText body : GoString) (req : Request)
    (h : http.NewRequest method urlText body = .ok req) :
    ∃ parsed : URL, url.Parse urlText = .ok parsed ∧
      req.URL = { parsed with Host := removeEmptyPort parsed.Host } := by
  unfold http.NewRequest at h
  cases hp : url.Parse urlText with
  | error err =>
    simp only [hp] at h
    split_ifs at h
  | ok parsed =>
    simp only [hp] at h
    split_ifs at h
    all_goals
      simp only [Except.ok.injEq] at h
      subst h
      exact ⟨parsed, rfl, rfl⟩

/-- C9 (counterexample). The reference `//evil.example/x` has no scheme, yet the
request built for it by a client with the default base URL goes to the host
`evil.example`, not to the host `music.163.com` of the base URL. -/
theorem NewRequest_network_path_keeps_its_host :
    (url.Parse (str "//evil.example/x")).toOption.map (fun rel => rel.Scheme) = some [] ∧
    (NewClient (fun _ => .error [])).BaseURL.Host = str "music.163.com" ∧
    (Client.NewRequest jsonEncodeText (NewClient (fun _ => .error [])) (str "GET")
        (str "//evil.example/x") none).toOption.map (fun req => (req.URL.Scheme, req.URL.Host)) =
      some (str "http", str "evil.example") := by
  refine ⟨?_, ?_, ?_⟩ <;> rfl

/-- A byte other than the separator stays in front of the cut. -/
theorem cut_cons_ne (sep c : UInt8) (t : GoString) (h : c ≠ sep) :
    cut sep (c :: t) = (c :: (cut sep t).1, (cut sep t).2.1, (cut sep t).2.2) := by
  rw [cut]
  simp [h]

/-- A leading separator cuts off the empty text. -/
theorem cut_cons_self (sep : UInt8) (t : GoString) : cut sep (sep :: t) = ([], t, true) := by
  rw [cut]
  simp

/-- A cut passes over a front part that does not hold the separator. -/
theorem cut_append_of_not_mem (sep : UInt8) (p t : GoString) (h : sep ∉ p) :
    (cut sep (p ++ t)).1 = p ++ (cut sep t).1 ∧ (cut sep (p ++ t)).2.1 = (cut sep t).2.1 := by
  induction p with
  | nil => exact ⟨rfl, rfl⟩
  | cons c p ih =>
    have hc : c ≠ sep := fun e => h (e ▸ List.mem_cons_self _ _)
    have ih2 := ih (fun e => h (List.mem_cons_of_mem _ e))
    rw [List.cons_append, cut_cons_ne sep c _ hc]
    exact ⟨by simp [ih2.1], ih2.2⟩

/-- When the separator occurs once, at the end, dropping the last byte is cutting at it. -/
theorem dropLast_eq_cut (q : UInt8) (l : GoString) (hl : l.getLast? = some q)
    (hc : l.count q = 1) : l.dropLast = (cut q l).1 := by
  induction l with
  | nil => simp at hl
  | cons c t ih =>
    cases t with
    | nil =>
      simp at hl
      subst hl
      rw [cut_cons_self]
      rfl
    | cons d t2 =>
      have hl2 : (d :: t2).getLast? = some q := by simpa [List.getLast?_cons_cons] using hl
      have hmem : q ∈ d :: t2 := List.mem_of_getLast?_eq_some hl2
      have hpos : 0 < (d :: t2).count q := List.count_pos_iff.2 hmem
      by_cases hcq : c = q
      · subst hcq
        simp only [List.count_cons_self] at hc
        omega
      · have hc2 : (d :: t2).count q = 1 := by
          rw [List.count_cons_of_ne (fun e => hcq e.symm)] at hc
          exact hc
        have := ih hl2 hc2
        rw [cut_cons_ne q c _ hcq, List.dropLast_cons₂, this]

/-- There is no last index of a byte that does not occur. -/
theorem lastIndex_none_of_not_mem (sep : UInt8) (l : GoString) (h : sep ∉ l) :
    lastIndex sep l = none := by
  induction l with
  | nil => rfl
  | cons c t ih =>
    have hc : c ≠ sep := fun e => h (e ▸ List.mem_cons_self _ _)
    simp [lastIndex, ih (fun e => h (List.mem_cons_of_mem _ e)), hc]

/-- The first index of a byte is the length of a front part that does not hold it. -/
theorem indexOf_single_append (sep : UInt8) (h t : GoString) (hn : sep ∉ h) :
    indexOf [sep] (h ++ sep :: t) = some h.length ∧ indexOf [sep] h = none := by
  induction h with
  | nil => simp [indexOf, hasPrefix]
  | cons c p ih =>
    have hc : c ≠ sep := fun e => hn (e ▸ List.mem_cons_self _ _)
    have ih2 := ih (fun e => hn (List.mem_cons_of_mem _ e))
    simp [indexOf, hasPrefix, hc, ih2.1, ih2.2]

/-- The scan of `getScheme` passes over scheme bytes and stops at the colon after them. -/
theorem getSchemeFrom_scan (rest : GoString) :
    ∀ (l pre : GoString), pre ≠ [] →
      (l.all fun b =>
        ((ch 'a' ≤ b && b ≤ ch 'z') || (ch 'A' ≤ b && b ≤ ch 'Z')) ||
        ((ch '0' ≤ b && b ≤ ch '9') || b = ch '+' || b = ch '-' || b = ch '.')) = true →
      getSchemeFrom (pre ++ l ++ ch ':' :: rest) pre.length (l ++ ch ':' :: rest) =
        .ok (pre ++ l, rest) := by
  intro l
  induction l with
  | nil =>
    intro pre hpre _
    have h1 : ((ch 'a' ≤ ch ':' && ch ':' ≤ ch 'z') || (ch 'A' ≤ ch ':' && ch ':' ≤ ch 'Z')) = false := by
      decide
    have h2 : ((ch '0' ≤ ch ':' && ch ':' ≤ ch '9') || decide (ch ':' = ch '+') ||
        decide (ch ':' = ch '-') || decide (ch ':' = ch '.')) = false := by decide
    have hlen : pre.length ≠ 0 := fun e => hpre (List.length_eq_zero.1 e)
    rw [List.nil_append, getSchemeFrom]
    simp only [h1, h2, if_true, hlen, if_false, Bool.false_eq_true, List.append_nil]
    simp
  | cons c t ih =>
    intro pre hpre hall
    simp only [List.all_cons, Bool.and_eq_true] at hall
    have hstep := ih (pre ++ [c]) (by simp) hall.2
    have hlen : pre.length ≠ 0 := fun e => hpre (List.length_eq_zero.1 e)
    have hraw : pre ++ (c :: t) ++ ch ':' :: rest = pre ++ [c] ++ t ++ ch ':' :: rest := by simp
    rw [hraw, List.cons_append, getSchemeFrom]
    simp only [List.length_append, List.length_singleton] at hstep
    by_cases hletter : ((ch 'a' ≤ c && c ≤ ch 'z') || (ch 'A' ≤ c && c ≤ ch 'Z')) = true
    · simp only [hletter, if_true]
      rw [hstep]
      simp
    · have hdig : ((ch '0' ≤ c && c ≤ ch '9') || decide (c = ch '+') || decide (c = ch '-') ||
          decide (c = ch '.')) = true := by
        rcases Bool.or_eq_true_iff.1 hall.1 with h | h
        · exact absurd h hletter
        · exact h
      simp only [hletter, hdig, if_true, hlen, if_false]
      rw [hstep]
      simp

/-- Function `getScheme` splits a scheme from the text after its colon. -/
theorem getScheme_of_schemeBytes (s rest : GoString) (hs : schemeBytes s = true) :
    getScheme (s ++ ch ':' :: rest) = .ok (s, rest) := by
  cases s with
  | nil => simp [schemeBytes] at hs
  | cons c t =>
    simp only [schemeBytes, Bool.and_eq_true] at hs
    have h := getSchemeFrom_scan rest t [c] (by simp) hs.2
    unfold getScheme
    rw [List.cons_append, getSchemeFrom]
    simp only [hs.1, if_true]
    simpa using h

/-- A host that needs no escaping holds none of `/`, `?`, `#`, `@`. -/
theorem not_mem_of_needs_no_escape (H : GoString)
    (hesc : ∀ b ∈ H, shouldEscape b encodeHost = false) :
    ch '/' ∉ H ∧ ch '?' ∉ H ∧ ch '#' ∉ H ∧ ch '@' ∉ H := by
  have h1 : shouldEscape (ch '/') encodeHost = true := by decide
  have h2 : shouldEscape (ch '?') encodeHost = true := by decide
  have h3 : shouldEscape (ch '#') encodeHost = true := by decide
  have h4 : shouldEscape (ch '@') encodeHost = true := by decide
  refine ⟨fun m => ?_, fun m => ?_, fun m => ?_, fun m => ?_⟩
  · simp [hesc _ m] at h1
  · simp [hesc _ m] at h2
  · simp [hesc _ m] at h3
  · simp [hesc _ m] at h4

/-- An authority that is a host needing no escaping and parsing to itself has no user information. -/
theorem parseAuthority_host (H : GoString) (hesc : ∀ b ∈ H, shouldEscape b encodeHost = false)
    (hparse : parseHost H = .ok H) : parseAuthority H = .ok (none, H) := by
  unfold parseAuthority
  rw [lastIndex_none_of_not_mem _ _ (not_mem_of_needs_no_escape H hesc).2.2.2]
  simp only [hparse]

/-- The second half of `parse`, on `//host` followed by nothing or by a path, keeps the scheme and reads the host. -/
theorem parseRest_authority (url w : URL) (H T2 : GoString) (hsch : url.Scheme ≠ [])
    (hesc : ∀ b ∈ H, shouldEscape b encodeHost = false) (hparse : parseHost H = .ok H)
    (hT2 : T2 = [] ∨ ∃ t, T2 = ch '/' :: t)
    (h : parseRest url (ch '/' :: ch '/' :: (H ++ T2)) false = .ok w) :
    w.Scheme = url.Scheme ∧ w.Host = H := by
  have hs1 : str "/" = [ch '/'] := by decide
  have hs2 : str "//" = [ch '/', ch '/'] := by decide
  have hs3 : str "///" = [ch '/', ch '/', ch '/'] := by decide
  have hp1 : hasPrefix (ch '/' :: ch '/' :: (H ++ T2)) (str "/") = true := by
    simp [hasPrefix, hs1]
  have hp2 : hasPrefix (ch '/' :: ch '/' :: (H ++ T2)) (str "//") = true := by
    simp [hasPrefix, hs2]
  have hne : (url.Scheme != []) = true := by simpa using hsch
  have hauth := parseAuthority_host H hesc hparse
  have hslash := (not_mem_of_needs_no_escape H hesc).1
  unfold parseRest at h
  simp only [hp1, hp2, hne, Bool.not_true, Bool.false_and, Bool.true_or, Bool.and_self,
    Bool.false_eq_true, if_false, if_true, List.drop_succ_cons, List.drop_zero] at h
  simp only [hs1] at h
  rcases hT2 with hT | ⟨t, hT⟩
  · subst hT
    rw [List.append_nil] at h
    simp only [(indexOf_single_append (ch '/') H [] hslash).2, hauth] at h
    have hp := setPath_ok _ _ _ h
    exact ⟨hp.1, hp.2.2.1⟩
  · subst hT
    simp only [(indexOf_single_append (ch '/') H t hslash).1, List.take_left', hauth] at h
    have hp := setPath_ok _ _ _ h
    exact ⟨hp.1, hp.2.2.1⟩

/-- A scheme is not empty and holds no `#`. -/
theorem not_mem_of_schemeBytes (S : GoString) (hS : schemeBytes S = true) :
    ch '#' ∉ S ∧ S ≠ [] := by
  cases S with
  | nil => simp [schemeBytes] at hS
  | cons c t =>
    simp only [schemeBytes, Bool.and_eq_true, List.all_eq_true] at hS
    refine ⟨fun m => ?_, by simp⟩
    have h1 : ((ch 'a' ≤ ch '#' && ch '#' ≤ ch 'z') || (ch 'A' ≤ ch '#' && ch '#' ≤ ch 'Z')) = false := by
      decide
    have h2 : (((ch 'a' ≤ ch '#' && ch '#' ≤ ch 'z') || (ch 'A' ≤ ch '#' && ch '#' ≤ ch 'Z')) ||
        ((ch '0' ≤ ch '#' && ch '#' ≤ ch '9') || decide (ch '#' = ch '+') ||
          decide (ch '#' = ch '-') || decide (ch '#' = ch '.'))) = false := by decide
    rcases List.mem_cons.1 m with e | e
    · rw [← e] at hS
      rw [h1] at hS
      exact absurd hS.1 (by simp)
    · have := hS.2 _ e
      rw [h2] at this
      exact absurd this (by simp)

/-- Function `parse` reads scheme and host back from `scheme://host` followed by nothing, a path or a query. -/
theorem parse_scheme_host (S H T1 : GoString) (w : URL) (hS : schemeBytes S = true)
    (hlow : toLower S = S) (hesc : ∀ b ∈ H, shouldEscape b encodeHost = false)
    (hparse : parseHost H = .ok H)
    (hT1 : T1 = [] ∨ ∃ t, T1 = ch '/' :: t ∨ T1 = ch '?' :: t)
    (h : parse (S ++ ch ':' :: ch '/' :: ch '/' :: (H ++ T1)) false = .ok w) :
    w.Scheme = S ∧ w.Host = H := by
  have hSne := (not_mem_of_schemeBytes S hS).2
  have hq : ch '?' ∉ ch '/' :: ch '/' :: H := by
    intro m
    rcases List.mem_cons.1 m with e | m2
    · exact absurd e (by decide)
    · rcases List.mem_cons.1 m2 with e | m3
      · exact absurd e (by decide)
      · exact (not_mem_of_needs_no_escape H hesc).2.1 m3
  have hcut : (cut (ch '?') (ch '/' :: ch '/' :: (H ++ T1))).1 =
      ch '/' :: ch '/' :: (H ++ (cut (ch '?') T1).1) := by
    have := (cut_append_of_not_mem (ch '?') (ch '/' :: ch '/' :: H) T1 hq).1
    simpa using this
  have hT2 : (cut (ch '?') T1).1 = [] ∨ ∃ t, (cut (ch '?') T1).1 = ch '/' :: t := by
    rcases hT1 with e | ⟨t, e | e⟩
    · subst e
      exact Or.inl rfl
    · subst e
      rw [cut_cons_ne _ _ _ (by decide)]
      exact Or.inr ⟨_, rfl⟩
    · subst e
      rw [cut_cons_self]
      exact Or.inl rfl
  have hstar : S ++ ch ':' :: ch '/' :: ch '/' :: (H ++ T1) ≠ str "*" := by
    have hs : str "*" = [ch '*'] := by decide
    rw [hs]
    cases S with
    | nil => exact absurd rfl hSne
    | cons c t => simp
  have hmain : ∀ rest0 : GoString, rest0 = ch '/' :: ch '/' :: (H ++ T1) →
      (if (decide (List.getLast? rest0 = some (ch '?')) &&
            decide (List.count (ch '?') rest0 = 1)) = true then
          parseRest { Scheme := toLower S, ForceQuery := true } (List.dropLast rest0) false
        else
          parseRest { Scheme := toLower S, RawQuery := (cut (ch '?') rest0).2.1 }
            (cut (ch '?') rest0).1 false) = .ok w →
      w.Scheme = S ∧ w.Host = H := by
    intro rest0 hr h0
    subst hr
    split_ifs at h0 with hforced
    · simp only [Bool.and_eq_true, decide_eq_true_eq] at hforced
      rw [dropLast_eq_cut _ _ hforced.1 hforced.2, hcut] at h0
      have := parseRest_authority _ w H _ (by simpa [hlow] using hSne) hesc hparse hT2 h0
      simpa [hlow] using this
    · rw [hcut] at h0
      have := parseRest_authority _ w H _ (by simpa [hlow] using hSne) hesc hparse hT2 h0
      simpa [hlow] using this
  unfold parse at h
  rw [getScheme_of_schemeBytes S _ hS] at h
  simp only [Bool.and_false, Bool.false_eq_true, if_false, hstar] at h
  split_ifs at h with hctl hforced
  · exact hmain _ rfl (by rw [if_pos hforced]; exact h)
  · exact hmain _ rfl (by rw [if_neg hforced]; exact h)

/-- Function `url.Parse` reads scheme and host back from `scheme://host` followed by nothing, a path, a query or a fragment. -/
theorem Parse_rendered_scheme_host (S H T : GoString) (parsed : URL) (hS : schemeBytes S = true)
    (hlow : toLower S = S) (hesc : ∀ b ∈ H, shouldEscape b encodeHost = false)
    (hparse : parseHost H = .ok H)
    (hT : T = [] ∨ ∃ t, T = ch '/' :: t ∨ T = ch '?' :: t ∨ T = ch '#' :: t)
    (h : url.Parse (S ++ ch ':' :: ch '/' :: ch '/' :: (H ++ T)) = .ok parsed) :
    parsed.Scheme = S ∧ parsed.Host = H := by
  have hh : ch '#' ∉ S ++ ch ':' :: ch '/' :: ch '/' :: H := by
    intro m
    rcases List.mem_append.1 m with m1 | m1
    · exact (not_mem_of_schemeBytes S hS).1 m1
    · rcases List.mem_cons.1 m1 with e | m2
      · exact absurd e (by decide)
      · rcases List.mem_cons.1 m2 with e | m3
        · exact absurd e (by decide)
        · rcases List.mem_cons.1 m3 with e | m4
          · exact absurd e (by decide)
          · exact (not_mem_of_needs_no_escape H hesc).2.2.1 m4
  have hassoc : S ++ ch ':' :: ch '/' :: ch '/' :: (H ++ T) =
      (S ++ ch ':' :: ch '/' :: ch '/' :: H) ++ T := by simp
  have hcut : (cut (ch '#') (S ++ ch ':' :: ch '/' :: ch '/' :: (H ++ T))).1 =
      S ++ ch ':' :: ch '/' :: ch '/' :: (H ++ (cut (ch '#') T).1) := by
    rw [hassoc, (cut_append_of_not_mem (ch '#') _ T hh).1]
    simp
  have hT1 : (cut (ch '#') T).1 = [] ∨
      ∃ t, (cut (ch '#') T).1 = ch '/' :: t ∨ (cut (ch '#') T).1 = ch '?' :: t := by
    rcases hT with e | ⟨t, e | e | e⟩
    · subst e
      exact Or.inl rfl
    · subst e
      rw [cut_cons_ne _ _ _ (by decide)]
      exact Or.inr ⟨_, Or.inl rfl⟩
    · subst e
      rw [cut_cons_ne _ _ _ (by decide)]
      exact Or.inr ⟨_, Or.inr rfl⟩
    · subst e
      rw [cut_cons_self]
      exact Or.inl rfl
  unfold url.Parse at h
  simp only [hcut] at h
  split at h
  · simp at h
  · rename_i u hu
    have hw := parse_scheme_host S H _ u hS hlow hesc hparse hT1 hu
    split_ifs at h
    · simp only [Except.ok.injEq] at h
      subst h
      exact hw
    · split at h
      · simp at h
      · rename_i u2 hf
        simp only [Except.ok.injEq] at h
        subst h
        have hfo := setFragment_ok _ _ _ hf
        exact ⟨hfo.1.trans hw.1, hfo.2.2.1.trans hw.2⟩

/-- Text that needs no escaping is its own escaped form. -/
theorem escape_of_needs_no_escape (s : GoString) (mode : Encoding)
    (h : ∀ b ∈ s, shouldEscape b mode = false) : escape s mode = s := by
  induction s with
  | nil => rfl
  | cons c t ih =>
    have hc := h c (List.mem_cons_self _ _)
    have ht := ih (fun b hb => h b (List.mem_cons_of_mem _ hb))
    unfold escape at ht ⊢
    simp only [List.flatMap_cons, hc, Bool.false_eq_true, if_false, ht]
    rfl

/-- The rendering of a hierarchical URL with a host and without user information is `scheme://host` followed by nothing, a path, a query or a fragment. -/
theorem String_hierarchical (u : URL) (hS : u.Scheme ≠ []) (hO : u.Opaque = []) (hH : u.Host ≠ [])
    (hU : u.User = none) (hE : ∀ b ∈ u.Host, shouldEscape b encodeHost = false) :
    ∃ T : GoString,
      URL.String u = u.Scheme ++ ch ':' :: ch '/' :: ch '/' :: (u.Host ++ T) ∧
      (T = [] ∨ ∃ t, T = ch '/' :: t ∨ T = ch '?' :: t ∨ T = ch '#' :: t) := by
  have hs1 : str ":" = [ch ':'] := by decide
  have hs2 : str "//" = [ch '/', ch '/'] := by decide
  have hs3 : str "/" = [ch '/'] := by decide
  have hs4 : str "?" = [ch '?'] := by decide
  have hs5 : str "#" = [ch '#'] := by decide
  refine ⟨(if (u.EscapedPath != [] && u.EscapedPath.head? != some (ch '/')) = true
      then ch '/' :: u.EscapedPath else u.EscapedPath) ++
    (if (u.ForceQuery || u.RawQuery != []) = true then ch '?' :: u.RawQuery else []) ++
    (if (u.Fragment != []) = true then ch '#' :: u.EscapedFragment else []), ?_, ?_⟩
  · unfold URL.String
    simp only [hO, hU, escape_of_needs_no_escape _ _ hE, hs1, hs2, hs3, hs4, hs5]
    generalize u.EscapedPath = path
    generalize u.EscapedFragment = frag
    simp [hS, hH]
    split_ifs <;> simp_all
  · generalize u.EscapedPath = path
    cases path with
    | nil =>
      simp only [bne_self_eq_false, Bool.false_and, Bool.false_eq_true, if_false, List.nil_append]
      by_cases hq : (u.ForceQuery || u.RawQuery != []) = true
      · rw [if_pos hq]
        exact Or.inr ⟨_, Or.inr (Or.inl (List.cons_append _ _ _))⟩
      · rw [if_neg hq]
        by_cases hf : (u.Fragment != []) = true
        · rw [if_pos hf]
          exact Or.inr ⟨_, Or.inr (Or.inr rfl)⟩
        · rw [if_neg hf]
          exact Or.inl rfl
    | cons c p =>
      refine Or.inr ?_
      by_cases hc : ((c :: p != []) && (c :: p).head? != some (ch '/')) = true
      · rw [if_pos hc]
        exact ⟨_, Or.inl (by simp only [List.cons_append, List.append_assoc]; rfl)⟩
      · rw [if_neg hc]
        have hc2 : c = ch '/' := by
          by_contra hne
          exact hc (by simp [hne])
        subst hc2
        exact ⟨_, Or.inl (by simp only [List.cons_append, List.append_assoc]; rfl)⟩

/-- Setting the path leaves the user information and the opaque part alone. -/
theorem withPath_keeps_user (u : URL) (p : GoString) :
    (u.withPath p).User = u.User ∧ (u.withPath p).Opaque = u.Opaque := by
  unfold URL.withPath URL.setPath
  cases unescape p encodePath <;> exact ⟨rfl, rfl⟩

/-- Resolving a reference without scheme and authority against a base that is not opaque takes the user information of the base and is not opaque. -/
theorem ResolveReference_keeps_user (u ref : URL) (hs : ref.Scheme = []) (hh : ref.Host = [])
    (hu : ref.User = none) (ho : ref.Opaque = []) (hb : u.Opaque = []) :
    (u.ResolveReference ref).User = u.User ∧ (u.ResolveReference ref).Opaque = [] := by
  unfold URL.ResolveReference
  simp only [hs, hh, hu, ho, hb, if_true]
  split_ifs <;>
    simp_all [(withPath_keeps_user _ _).1, (withPath_keeps_user _ _).2]

/-- What `canonicalBase` says, as propositions. -/
theorem canonicalBase_spec (u : URL) (h : canonicalBase u = true) :
    schemeBytes u.Scheme = true ∧ toLower u.Scheme = u.Scheme ∧ u.Opaque = [] ∧
    u.User = none ∧ u.Host ≠ [] ∧ (∀ b ∈ u.Host, shouldEscape b encodeHost = false) ∧
    parseHost u.Host = .ok u.Host ∧ removeEmptyPort u.Host = u.Host := by
  simp only [canonicalBase, Bool.and_eq_true, beq_iff_eq, bne_iff_ne, List.all_eq_true,
    Bool.not_eq_true', Option.isNone_iff_eq_none] at h
  obtain ⟨⟨⟨⟨⟨⟨⟨h1, h2⟩, h3⟩, h4⟩, h5⟩, h6⟩, h7⟩, h8⟩ := h
  refine ⟨h1, h2, h3, h4, h5, h6, ?_, h8⟩
  cases hp : parseHost u.Host with
  | error e => simp [hp, Except.toOption] at h7
  | ok x =>
    simp only [hp, Except.toOption, Option.some.injEq] at h7
    rw [h7]

/-- C9 (amended). When the base URL of the client is in canonical form
(`canonicalBase`: a lower-case scheme, not opaque, no user information, a host
that needs no escaping, parses to itself and has no empty port) and the path
parses to a reference without scheme and without authority (no host, no user
information), every request that `NewRequest` builds has a URL whose scheme and
host are the scheme and the host of the base URL. -/
theorem NewRequest_relative {B : Type} (jsonEncode : B → Except GoString GoString)
    (c : Client) (method urlStr : GoString) (body : Option B) (rel : URL) (req : Request)
    (hparse : url.Parse urlStr = .ok rel) (hscheme : rel.Scheme = [])
    (hhost : rel.Host = []) (huser : rel.User = none)
    (hbase : canonicalBase c.BaseURL = true)
    (hreq : Client.NewRequest jsonEncode c method urlStr body = .ok req) :
    req.URL.Scheme = c.BaseURL.Scheme ∧ req.URL.Host = c.BaseURL.Host := by
  obtain ⟨b1, b2, b3, b4, b5, b6, b7, b8⟩ := canonicalBase_spec _ hbase
  have hopq := Parse_opaque_of_no_scheme _ _ hparse hscheme
  have hS := ResolveReference_scheme c.BaseURL rel hscheme
  have hH := ResolveReference_host c.BaseURL rel hscheme hhost huser hopq b3
  have hUO := ResolveReference_keeps_user c.BaseURL rel hscheme hhost huser hopq b3
  have hSne : (c.BaseURL.ResolveReference rel).Scheme ≠ [] := by
    rw [hS]
    exact (not_mem_of_schemeBytes _ b1).2
  obtain ⟨T, hT, hshape⟩ := String_hierarchical (c.BaseURL.ResolveReference rel) hSne hUO.2
    (by rw [hH]; exact b5) (by rw [hUO.1]; exact b4) (by rw [hH]; exact b6)
  rw [hS, hH] at hT
  unfold Client.NewRequest at hreq
  simp only [hparse] at hreq
  split at hreq
  · simp at hreq
  · split at hreq
    · simp at hreq
    · rename_i req0 hreq0
      simp only [Except.ok.injEq] at hreq
      subst hreq
      obtain ⟨parsed, hp, hurl⟩ := http_NewRequest_url _ _ _ req0 hreq0
      rw [hT] at hp
      have hk := Parse_rendered_scheme_host _ _ T parsed b1 b2 b6 b7 hshape hp
      simp only [hurl]
      exact ⟨hk.1, by rw [hk.2]; exact b8⟩

/-- Witness of C9 (amended): the path `/song/detail` with the client of `NewClient`. -/
theorem NewRequest_relative_witness :
    ({ Method := str "GET",
       URL := { Scheme := str "http", Host := str "music.163.com", Path := str "/song/detail" },
       Header := [(str "Referer", referer), (str "User-Agent", userAgent)],
       Body := [] } : Request).URL.Scheme = (NewClient (fun _ => .error [])).BaseURL.Scheme ∧
    ({ Method := str "GET",
       URL := { Scheme := str "http", Host := str "music.163.com", Path := str "/song/detail" },
       Header := [(str "Referer", referer), (str "User-Agent", userAgent)],
       Body := [] } : Request).URL.Host = (NewClient (fun _ => .error [])).BaseURL.Host :=
  NewRequest_relative jsonEncodeText (NewClient (fun _ => .error [])) (str "GET")
    (str "/song/detail") none { Path := str "/song/detail" }
    { Method := str "GET",
      URL := { Scheme := str "http", Host := str "music.163.com", Path := str "/song/detail" },
      Header := [(str "Referer", referer), (str "User-Agent", userAgent)],
      Body := [] }
    rfl rfl rfl rfl (by decide) rfl

/-- The base URL `http://music.163.com:/api` has an empty port: the request built
for `/song/detail` goes to the host `music.163.com`, which is not the host
`music.163.com:` of the base URL. -/
theorem NewRequest_empty_port_base :
    (url.Parse (str "http://music.163.com:/api")).toOption.map (fun b => b.Host) =
      some (str "music.163.com:") ∧
    ((url.Parse (str "http://music.163.com:/api")).toOption.bind fun b =>
      (Client.NewRequest jsonEncodeText
        { client := fun _ => .error [], BaseURL := b, UserAgent := userAgent }
        (str "GET") (str "/song/detail") none).toOption.map fun req => req.URL.Host) =
      some (str "music.163.com") := by
  constructor <;> rfl

/-! ## Theorems: rendering of errors -/

/-- The rendering of an element is part of the rendering of the list. -/
theorem infix_intercalate_map {α : Type} (sep : GoString) (f : α → GoString) (l : List α)
    (x : α) (hx : x ∈ l) : f x <:+: sep.intercalate (l.map f) := by
  induction l with
  | nil => cases hx
  | cons a t ih =>
    cases t with
    | nil =>
      simp only [List.mem_singleton] at hx
      subst hx
      simp [List.intercalate]
    | cons b t2 =>
      have hrw : sep.intercalate ((a :: b :: t2).map f) =
          f a ++ sep ++ sep.intercalate ((b :: t2).map f) := by
        simp [List.intercalate, List.intersperse]
      rw [hrw]
      rcases List.mem_cons.1 hx with h | h
      · subst h
        exact ⟨[], sep ++ sep.intercalate ((b :: t2).map f), by simp⟩
      · exact (ih h).trans ⟨f a ++ sep, [], by simp⟩

/-- The code, the field and the resource of a sub-error occur in its rendering. -/
theorem fmtErrorStruct_contains (x : Error) :
    x.Code <:+: fmtErrorStruct x ∧ x.Field <:+: fmtErrorStruct x ∧
      x.Resource <:+: fmtErrorStruct x := by
  unfold fmtErrorStruct
  refine ⟨?_, ?_, ?_⟩
  · exact ⟨str "\x7bResource:" ++ x.Resource ++ str " Field:" ++ x.Field ++ str " Code:",
      str "\x7d", by simp⟩
  · exact ⟨str "\x7bResource:" ++ x.Resource ++ str " Field:",
      str " Code:" ++ x.Code ++ str "\x7d", by simp⟩
  · exact ⟨str "\x7bResource:", str " Field:" ++ x.Field ++ str " Code:" ++ x.Code ++ str "\x7d",
      by simp⟩

/-- C6. For an `ErrorResponse` whose response and request are present,
`Error()` returns the request method, the request URL, the status code in
decimal and the message, in that order, followed by the rendering of the
sub-error list: the renderings of the sub-errors in list order, each containing
the code, the field and the resource of its sub-error. -/
theorem ErrorResponse_Error_rendering (e : ErrorResponse) (resp : HTTPResponse) (req : Request)
    (hresp : e.Response = some resp) (hreq : resp.Request = some req) :
    e.Error = some (req.Method ++ str " " ++ URL.String req.URL ++ str ": " ++
      str (toString resp.StatusCode) ++ str " " ++ e.Message ++ str " " ++ fmtErrors e.Errors) ∧
    fmtErrors e.Errors =
      str "[" ++ (str " ").intercalate (e.Errors.map fmtErrorStruct) ++ str "]" ∧
    ∀ x ∈ e.Errors,
      fmtErrorStruct x <:+: fmtErrors e.Errors ∧ x.Code <:+: fmtErrorStruct x ∧
        x.Field <:+: fmtErrorStruct x ∧ x.Resource <:+: fmtErrorStruct x := by
  refine ⟨?_, rfl, ?_⟩
  · simp only [ErrorResponse.Error, hresp, hreq, fmtInt]
  · intro x hx
    refine ⟨?_, fmtErrorStruct_contains x⟩
    unfold fmtErrors
    exact ((infix_intercalate_map (str " ") fmtErrorStruct e.Errors x hx).trans
      (List.infix_append _ _ _))

/-- Witness of C6: the envelope of the 404 scenario. -/
theorem ErrorResponse_Error_rendering_witness :
    (ErrorResponse.Error
        { Response := some { StatusCode := 404, Body := notFoundBody, Request := some detailRequest },
          Message := str "not found",
          Errors := [{ Resource := str "song", Field := str "id", Code := str "missing" }] }) =
      some (str "GET http://music.163.com/api/song/detail: 404 not found [\x7bResource:song Field:id Code:missing\x7d]") :=
  (ErrorResponse_Error_rendering
    { Response := some { StatusCode := 404, Body := notFoundBody, Request := some detailRequest },
      Message := str "not found",
      Errors := [{ Resource := str "song", Field := str "id", Code := str "missing" }] }
    { StatusCode := 404, Body := notFoundBody, Request := some detailRequest }
    detailRequest rfl rfl).1

/-- C7 (the code at the failing input). For the sub-error with resource `song`,
field `id` and code `missing`, `Error.Error()` renders `filed on`, not `field on`;
and the message of the error that `Do` returns for the 404 body carrying that
sub-error holds the struct rendering of the sub-error, not the text of
`Error.Error()`: `field on song resource` occurs in neither. -/
theorem Error_rendering_at_song_id_missing :
    Error.Error { Resource := str "song", Field := str "id", Code := str "missing" } =
      str "missing error caused by id filed on song resource" ∧
    (Client.Do storeNothing rawDecode (clientAnswering 404 notFoundBody) detailRequest
        (Dest.ptr [])).2.1.bind GoError.Error =
      some (str "GET http://music.163.com/api/song/detail: 404 not found [\x7bResource:song Field:id Code:missing\x7d]") ∧
    ¬ (str "field on song resource" <:+:
      Error.Error { Resource := str "song", Field := str "id", Code := str "missing" }) ∧
    ¬ (str "field on song resource" <:+:
      str "GET http://music.163.com/api/song/detail: 404 not found [\x7bResource:song Field:id Code:missing\x7d]") := by
  refine ⟨by decide, by decide, by decide, by decide⟩



/-! ## Theorems: the error envelope -/

/-- Decoding the JSON object of a sub-error into a zero `Error` gives the sub-error. -/
theorem decodeError_toJSON (e : Error) : decodeError (Error.toJSON e) {} = e := by
  have h1 : fieldMatches "resource" (str "resource") = true := by decide
  have h2 : fieldMatches "resource" (str "field") = false := by decide
  have h3 : fieldMatches "field" (str "field") = true := by decide
  have h4 : fieldMatches "resource" (str "code") = false := by decide
  have h5 : fieldMatches "field" (str "code") = false := by decide
  have h6 : fieldMatches "code" (str "code") = true := by decide
  simp [decodeError, Error.toJSON, decodeErrorMember, decodeString, h1, h2, h3, h4, h5, h6]

/-- Decoding the JSON array of a list of sub-errors into a nil slice gives the list,
in its order. -/
theorem decodeErrorItems_toJSON (errs : List Error) :
    decodeErrorItems (errs.map Error.toJSON) [] = errs := by
  induction errs with
  | nil => rfl
  | cons e t ih => simp [decodeErrorItems, decodeError_toJSON, ih]

/-- The envelope for bodies that do not store into `Response`. For a status code outside
`[200, 299]`: when the body cannot be read, or is not valid JSON (the empty body
included), or is a JSON value that is not an object, `CheckResponse` leaves `r`
as it was and returns the envelope with `Response` pointing at `r`, the empty
message and no sub-errors; when the body is a well-formed envelope it returns
the envelope with `Response` pointing at `r`, the message of the body and the
sub-errors of the body in their order. -/
theorem CheckResponse_envelope (httpInto : JValue → Option HTTPResponse → HTTPResponse)
    (r : HTTPResponse) (hcode : ¬ (200 ≤ r.StatusCode ∧ r.StatusCode ≤ 299)) :
    ((r.Body.readErr.isSome ∨ r.Body.json = none ∨
        (∃ v, r.Body.json = some v ∧ ∀ members, v ≠ JValue.object members)) →
      CheckResponse httpInto r = (r, some (GoError.api { Response := some r }))) ∧
    (∀ msg errs, r.Body.readErr = none → r.Body.json = some (envelopeJSON msg errs) →
      CheckResponse httpInto r =
        (r, some (GoError.api { Response := some r, Message := msg, Errors := errs }))) := by
  have h1 : fieldMatches "Response" (str "message") = false := by decide
  have h2 : fieldMatches "message" (str "message") = true := by decide
  have h3 : fieldMatches "Response" (str "errors") = false := by decide
  have h4 : fieldMatches "message" (str "errors") = false := by decide
  have h5 : fieldMatches "errors" (str "errors") = true := by decide
  refine ⟨?_, ?_⟩
  · intro h
    unfold CheckResponse
    simp only [hcode, if_false, ioutil.ReadAll]
    cases hre : r.Body.readErr with
    | some msg => rfl
    | none =>
      rcases h with h | h | ⟨v, hv, hno⟩
      · simp [hre] at h
      · simp only [json.Unmarshal, h]
      · cases v with
        | object members => exact absurd rfl (hno members)
        | _ => simp only [json.Unmarshal, hv]
  · intro msg errs hre hjson
    unfold CheckResponse
    simp only [hcode, if_false, ioutil.ReadAll, hre, hjson, json.Unmarshal, envelopeJSON]
    simp [unmarshalMember, decodeString, decodeErrors, decodeErrorItems_toJSON, h1, h2, h3, h4, h5]

/-- Witness of the envelope theorem: the 404 scenario of the specification. -/
theorem CheckResponse_envelope_witness :
    CheckResponse storeNothing
        { StatusCode := 404, Body := notFoundBody, Request := some detailRequest } =
      ({ StatusCode := 404, Body := notFoundBody, Request := some detailRequest },
        some (GoError.api
          { Response := some { StatusCode := 404, Body := notFoundBody, Request := some detailRequest },
            Message := str "not found",
            Errors := [{ Resource := str "song", Field := str "id", Code := str "missing" }] })) :=
  (CheckResponse_envelope storeNothing
    { StatusCode := 404, Body := notFoundBody, Request := some detailRequest } (by decide)).2
    (str "not found") [{ Resource := str "song", Field := str "id", Code := str "missing" }] rfl rfl

/-- C8 (the code at the failing input). For the 404 response whose body is
`\x7b"Response":null\x7d`, `CheckResponse` returns an envelope whose `Response` is the
nil pointer, not the response it was given, and `Error()` on that envelope
dereferences the nil pointer. -/
theorem CheckResponse_null_Response_member :
    ((CheckResponse storeNothing
        { StatusCode := 404, Body := nullResponseBody, Request := some detailRequest }).2.bind
      fun err =>
        match err with
        | GoError.api e => some (e.Response.isSome, e.Message, e.Errors)
        | _ => none) = some (false, [], []) ∧
    (CheckResponse storeNothing
        { StatusCode := 404, Body := nullResponseBody, Request := some detailRequest }).2.bind
      GoError.Error = none := by
  constructor <;> decide


end Music163
